import Mathlib

/-!
Shallow embedding of the text-transformation core of the notes CLI
(`validateInput`, `escapeForAppleScript`, `sanitizeHTML`, `convertToHTML`,
`convertHTMLToMarkdown`).  Strings are modelled as `List Char` (JS strings);
each JS `String.replace` with a `g`-flagged regex is modelled as a single
left-to-right scan that never rescans replaced text, exactly as the JS engine
behaves.  `null`-able parameters are modelled as `Option (List Char)`.
-/

namespace Notes

abbrev Str := List Char

/-- JS word character class `\w` = `[A-Za-z0-9_]`. -/
def isWordChar (c : Char) : Bool :=
  ('a' ≤ c && c ≤ 'z') || ('A' ≤ c && c ≤ 'Z') || ('0' ≤ c && c ≤ '9') || c == '_'

/-- JS whitespace class `\s` (also the set trimmed by `String.prototype.trim`). -/
def isJsSpace (c : Char) : Bool :=
  c == ' ' || c == '\t' || c == '\n' || c.toNat == 11 || c.toNat == 12 ||
  c.toNat == 13 || c.toNat == 0xa0 || c.toNat == 0x1680 ||
  (0x2000 ≤ c.toNat && c.toNat ≤ 0x200a) || c.toNat == 0x2028 ||
  c.toNat == 0x2029 || c.toNat == 0x202f || c.toNat == 0x205f ||
  c.toNat == 0x3000 || c.toNat == 0xfeff

/-- JS line terminators (the characters `.` does not match, and around which
multiline `^`/`$` anchor). -/
def isLineTerm (c : Char) : Bool :=
  c == '\n' || c.toNat == 13 || c.toNat == 0x2028 || c.toNat == 0x2029

/-- ASCII lower-casing, as the `i` regex flag behaves on the patterns used here. -/
def lowerChar (c : Char) : Char :=
  if 'A' ≤ c && c ≤ 'Z' then Char.ofNat (c.toNat + 32) else c

/-- Case-insensitive "text starts with pattern". -/
def ciStarts : Str → Str → Bool
  | [], _ => true
  | _ :: _, [] => false
  | p :: ps, c :: cs => lowerChar p == lowerChar c && ciStarts ps cs

/-- Case-sensitive "text starts with pattern". -/
def litStarts : Str → Str → Bool
  | [], _ => true
  | _ :: _, [] => false
  | p :: ps, c :: cs => p == c && litStarts ps cs

/-- Index of the first case-insensitive occurrence of `pat`. -/
def findCI (pat : Str) : Str → Option Nat
  | [] => if ciStarts pat [] then some 0 else none
  | c :: r => if ciStarts pat (c :: r) then some 0 else (findCI pat r).map (· + 1)

/-- Index of the first case-sensitive occurrence of `pat`. -/
def findLit (pat : Str) : Str → Option Nat
  | [] => if litStarts pat [] then some 0 else none
  | c :: r => if litStarts pat (c :: r) then some 0 else (findLit pat r).map (· + 1)

/-- First case-insensitive occurrence of `pat` reachable without crossing a
line terminator (the semantics of a lazy `.*?` before `pat`). -/
def findNoTerm (pat : Str) : Str → Option Nat
  | [] => none
  | c :: r =>
    if ciStarts pat (c :: r) then some 0
    else if isLineTerm c then none
    else (findNoTerm pat r).map (· + 1)

/-- Length of the longest prefix satisfying `p` (greedy character-class match). -/
def countWhile (p : Char → Bool) (l : Str) : Nat := (l.takeWhile p).length

/-- Character-by-character rewriting: models a global regex replace whose
pattern is a single-character class (deletion when `g c = []`). -/
def charMap (g : Char → List Char) : Str → Str
  | [] => []
  | c :: r => g c ++ charMap g r

/-- `text.replace(/\r\n/g, NL)` where `NL` is the two characters `\` `n`. -/
def crlfRepl : Str → Str
  | [] => []
  | [c] => [c]
  | c1 :: c2 :: r =>
    if c1 = '\r' ∧ c2 = '\n' then '\\' :: 'n' :: crlfRepl r
    else c1 :: crlfRepl (c2 :: r)

/-- A matcher receives the previous character of the original text (`none` at
the start, used by multiline anchors) and the remaining text; on success it
returns the number of characters consumed (always ≥ 1 for the patterns used
here) and the replacement text. -/
abbrev Matcher := Option Char → Str → Option (Nat × Str)

/-- One global-replace pass: leftmost match wins, the scan resumes after the
matched span, and replacement text is never rescanned — exactly JS
`String.replace` with a `g` regex.  `fuel` only needs to be ≥ the length of
the list. -/
def runRepl (m : Matcher) : Nat → Option Char → Str → Str
  | 0, _, l => l
  | _ + 1, _, [] => []
  | fuel + 1, prev, c :: rest =>
    match m prev (c :: rest) with
    | some (k, rep) =>
      if k = 0 then c :: runRepl m fuel (some c) rest
      else rep ++ runRepl m fuel (some ((c :: rest).getD (k - 1) c)) (rest.drop (k - 1))
    | none => c :: runRepl m fuel (some c) rest

/-- `text.replace(pattern, replacement)` over the whole text. -/
def replAll (m : Matcher) (l : Str) : Str := runRepl m l.length none l

/-- Mirror of `runRepl`'s scan that only reports whether any match exists. -/
def anyMatchA (m : Matcher) : Nat → Option Char → Str → Bool
  | 0, _, _ => false
  | _ + 1, _, [] => false
  | fuel + 1, prev, c :: rest =>
    match m prev (c :: rest) with
    | some (k, _) => if k = 0 then anyMatchA m fuel (some c) rest else true
    | none => anyMatchA m fuel (some c) rest

/-- Whether the pattern recognised by `m` matches anywhere in `l`. -/
def hasMatch (m : Matcher) (l : Str) : Bool := anyMatchA m l.length none l

/-- Whether `pat` occurs (case-insensitively) anywhere in `l`. -/
def containsCI (pat : Str) (l : Str) : Bool := (findCI pat l).isSome

/-- No character before the current position, or a non-word one: a `\b`
boundary immediately before a word character. -/
def noWordBefore : Option Char → Bool
  | none => true
  | some c => !isWordChar c

/-- End of text, or a non-word character next: a `\b` boundary immediately
after a word character. -/
def noWordAt : Str → Bool
  | [] => true
  | c :: _ => !isWordChar c

/-- Multiline `^`: start of text or just after a line terminator. -/
def atLineStart : Option Char → Bool
  | none => true
  | some c => isLineTerm c

/-- Multiline `$`: end of text or a line terminator next. -/
def lineEndAt : Str → Bool
  | [] => true
  | c :: _ => isLineTerm c

/-! ## escapeForAppleScript -/

/-- Matcher for `/\btell\b/gi`. -/
def tellM : Matcher := fun prev l =>
  if noWordBefore prev && ciStarts "tell".toList l && noWordAt (l.drop 4) then
    some (4, "t_e_l_l".toList)
  else none

/-- Matcher for `/\bend\s+tell\b/gi`. -/
def endTellM : Matcher := fun prev l =>
  if noWordBefore prev && ciStarts "end".toList l then
    let sp := countWhile isJsSpace (l.drop 3)
    if 1 ≤ sp && ciStarts "tell".toList (l.drop (3 + sp)) &&
        noWordAt (l.drop (3 + sp + 4)) then
      some (3 + sp + 4, "e_n_d_t_e_l_l".toList)
    else none
  else none

/-- `[\x00-\x08\x0B\x0C\x0E-\x1F\x7F]`: the control characters stripped. -/
def ctrlSet (c : Char) : Bool :=
  c.toNat ≤ 8 || c.toNat == 11 || c.toNat == 12 ||
  (14 ≤ c.toNat && c.toNat ≤ 31) || c.toNat == 127

/-- The Unicode line separator (U+2028) and paragraph separator (U+2029). -/
def sepSet (c : Char) : Bool := c.toNat == 0x2028 || c.toNat == 0x2029

/-- The zero-width and bidirectional-override characters stripped (U+200B to U+200F, U+202A to U+202E, U+2060 to U+2064, U+206A to U+206F, U+FEFF). -/
def zwSet (c : Char) : Bool :=
  (0x200B ≤ c.toNat && c.toNat ≤ 0x200F) || (0x202A ≤ c.toNat && c.toNat ≤ 0x202E) ||
  (0x2060 ≤ c.toNat && c.toNat ≤ 0x2064) || (0x206A ≤ c.toNat && c.toNat ≤ 0x206F) ||
  c.toNat == 0xFEFF

def gCtrl : Char → List Char := fun c => if ctrlSet c then [] else [c]

def gSep : Char → List Char := fun c => if sepSet c then [] else [c]

def gZw : Char → List Char := fun c => if zwSet c then [] else [c]

def gBack : Char → List Char := fun c => if c = '\\' then ['\\', '\\'] else [c]

def gQuote : Char → List Char := fun c => if c = '"' then ['\\', '"'] else [c]

def gCr : Char → List Char := fun c => if c = '\r' then ['\\', 'n'] else [c]

def gLf : Char → List Char := fun c => if c = '\n' then ['\\', 'n'] else [c]

def gTab : Char → List Char := fun c => if c = '\t' then ['\\', 't'] else [c]

def gFv : Char → List Char := fun c => if c.toNat = 12 ∨ c.toNat = 11 then [' '] else [c]

def gClose : Char → List Char := fun c => if c = '\x7d' then [] else [c]

def gOpen : Char → List Char := fun c => if c = '\x7b' then [] else [c]

/-- The replacement chain of `escapeForAppleScript` before truncation,
step for step in source order. -/
def escapeSteps (t : Str) : Str :=
  let t1 := replAll tellM t
  let t2 := replAll endTellM t1
  let t3 := charMap gCtrl t2
  let t4 := charMap gSep t3
  let t5 := charMap gZw t4
  let t6 := charMap gBack t5
  let t7 := charMap gQuote t6
  let t8 := crlfRepl t7
  let t9 := charMap gCr t8
  let t10 := charMap gLf t9
  let t11 := charMap gTab t10
  let t12 := charMap gFv t11
  let t13 := charMap gClose t12
  charMap gOpen t13

/-- `'... (truncated)'`, the marker appended after truncation (15 characters). -/
def truncMarker : Str := "... (truncated)".toList

/-- The truncation step: `substring(0, 50000)` plus the marker. -/
def truncStep (t : Str) : Str :=
  if 50000 < t.length then t.take 50000 ++ truncMarker else t

/-- `escapeForAppleScript(text)`.  A `none` argument models JS `null`; the
guard `if (!text) return ''` also fires on the empty string. -/
def escapeForAppleScript (input : Option Str) : Str :=
  match input with
  | none => []
  | some t => if t = [] then [] else truncStep (escapeSteps t)

/-! ## validateInput -/

/-- JS `String.prototype.trim`. -/
def jsTrim (l : Str) : Str :=
  ((l.dropWhile isJsSpace).reverse.dropWhile isJsSpace).reverse

/-- The three `throw new Error(...)` sites of `validateInput`, in source order:
`'Invalid input: expected string'`, `'Title too long (max 255 chars)'`,
`'Title cannot be empty'`. -/
inductive ValidationError where
  | invalidType
  | tooLong
  | emptyInput
  deriving DecidableEq, Repr

/-- `validateInput(input, type)`.  `none` models `null`/`undefined`; note the
JS guard `!input || typeof input !== 'string'` is also true for `''`. -/
def validateInput (input : Option Str) (ty : Str) :
    Except ValidationError Str :=
  match input with
  | none => .error .invalidType
  | some s =>
    if s = [] then .error .invalidType
    else if ty = "title".toList ∧ 255 < s.length then .error .tooLong
    else if ty = "title".toList ∧ jsTrim s = [] then .error .emptyInput
    else .ok (jsTrim s)

/-! ## sanitizeHTML -/

/-- A deleting matcher: pair a consumed-length function with the empty
replacement (all sanitizer rules replace their matches by `''`). -/
def delOf (extent : Option Char → Str → Option Nat) : Matcher :=
  fun p l => (extent p l).map (fun k => (k, []))

/-- Consumed length of `/<script\b[^<]*(?:(?!<\/script>)<[^<]*)*<\/script>/gi`:
the tempered pattern deterministically spans from `<script\b` to the first
following `</script>`. -/
def scriptElemK : Option Char → Str → Option Nat := fun _ l =>
  if ciStarts "<script".toList l && noWordAt (l.drop 7) then
    (findCI "</script>".toList (l.drop 7)).map (fun i => 7 + i + 9)
  else none

def scriptElemM : Matcher := delOf scriptElemK

/-- Consumed length of `/\s*on\w+\s*=\s*["'][^"']*["']/gi`. -/
def handlerK : Option Char → Str → Option Nat := fun _ l =>
  let sp := countWhile isJsSpace l
  let l1 := l.drop sp
  if ciStarts "on".toList l1 then
    let w := countWhile isWordChar (l1.drop 2)
    if 1 ≤ w then
      match l1.drop (2 + w) with
      | [] => none
      | c2 :: l2 =>
        let sp2 := countWhile isJsSpace (c2 :: l2)
        match (c2 :: l2).drop sp2 with
        | '=' :: l3 =>
          let sp3 := countWhile isJsSpace l3
          match l3.drop sp3 with
          | q :: l4 =>
            if q = '"' ∨ q.toNat = 39 then
              let v := countWhile (fun c => !(c == '"' || c.toNat == 39)) l4
              match l4.drop v with
              | q2 :: _ =>
                if q2 = '"' ∨ q2.toNat = 39 then
                  some (sp + 2 + w + sp2 + 1 + sp3 + 1 + v + 1)
                else none
              | [] => none
            else none
          | [] => none
        | _ => none
    else none
  else none

def handlerM : Matcher := delOf handlerK

/-- Consumed length of `/javascript:/gi`. -/
def jsSchemeK : Option Char → Str → Option Nat := fun _ l =>
  if ciStarts "javascript:".toList l then some 11 else none

def jsSchemeM : Matcher := delOf jsSchemeK

/-- Consumed length of `` `<${tag}\b[^>]*>(?:.*?<\/${tag}>)?` `` (flags `gi`):
the open tag is required, the close tag is taken lazily and only when reachable
on the same line (`.` does not cross line terminators). -/
def tagRemK (tag : Str) : Option Char → Str → Option Nat := fun _ l =>
  if ciStarts ('<' :: tag) l && noWordAt (l.drop (1 + tag.length)) then
    let a := countWhile (fun c => c != '>') (l.drop (1 + tag.length))
    match l.drop (1 + tag.length + a) with
    | '>' :: rest =>
      let k1 := 1 + tag.length + a + 1
      match findNoTerm ('<' :: '/' :: (tag ++ ['>'])) rest with
      | some i => some (k1 + i + (tag.length + 3))
      | none => some k1
    | _ => none
  else none

def tagRemM (tag : Str) : Matcher := delOf (tagRemK tag)

/-- `sanitizeHTML(text)`: the replacement chain in source order. -/
def sanitizeHTML (t : Str) : Str :=
  let t1 := replAll scriptElemM t
  let t2 := replAll handlerM t1
  let t3 := replAll jsSchemeM t2
  let t4 := replAll (tagRemM "script".toList) t3
  let t5 := replAll (tagRemM "iframe".toList) t4
  let t6 := replAll (tagRemM "object".toList) t5
  let t7 := replAll (tagRemM "embed".toList) t6
  replAll (tagRemM "form".toList) t7

/-- `sanitizeHTML` invoked JS-style on a nullable value: calling
`text.replace` on `null` throws a `TypeError`, modelled as `.error ()`. -/
def sanitizeHTMLcall : Option Str → Except Unit Str
  | none => .error ()
  | some s => .ok (sanitizeHTML s)

/-! ## convertToHTML -/

/-- Matcher for ``/```([\s\S]*?)```/g`` with its blockquote replacement. -/
def codeBlockM : Matcher := fun _ l =>
  if litStarts "```".toList l then
    match findLit "```".toList (l.drop 3) with
    | some i =>
      some (3 + i + 3,
        ("<blockquote style=\"background:#f5f5f5;padding:12px;" ++
         "border-left:4px solid #ddd;font-family:monospace;" ++
         "white-space:pre-wrap\">").toList ++
        (l.drop 3).take i ++ "</blockquote>".toList)
    | none => none
  else none

/-- Matcher for `` /`([^`]+)`/g `` with its inline-code replacement. -/
def inlineCodeM : Matcher := fun _ l =>
  match l with
  | '`' :: r =>
    let n := countWhile (fun c => c != '`') r
    if 1 ≤ n then
      match r.drop n with
      | '`' :: _ =>
        some (1 + n + 1,
          ("<code style=\"background:#f0f0f0;padding:2px 6px;" ++
           "border-radius:3px;font-family:monospace\">").toList ++
          r.take n ++ "</code>".toList)
      | _ => none
    else none
  | _ => none

/-- Matcher for a heading rule `^<marker> (.+)$` (flags `gm`). -/
def headingM (marker : Str) (openTag closeTag : Str) : Matcher := fun prev l =>
  if atLineStart prev && litStarts marker l then
    let n := countWhile (fun c => !isLineTerm c) (l.drop marker.length)
    if 1 ≤ n then
      some (marker.length + n,
        openTag ++ (l.drop marker.length).take n ++ closeTag)
    else none
  else none

/-- Consumed length of one maximal run `(?:^[\*\-] .+$\n?)+`
(or `(?:^\d+\. .+$\n?)+` via `isItem`), measured from a line start.
`isItem l` returns the marker length when the line begins a list item. -/
def listRunA (isItem : Str → Option Nat) : Nat → Str → Option Nat
  | 0, _ => none
  | fuel + 1, l =>
    match isItem l with
    | some mk =>
      let n := countWhile (fun c => !isLineTerm c) (l.drop mk)
      if 1 ≤ n then
        let k := mk + n
        match l.drop k with
        | '\n' :: r2 =>
          match listRunA isItem fuel r2 with
          | some k2 => some (k + 1 + k2)
          | none => some (k + 1)
        | _ => some k
      else none
    | none => none

/-- `[\*\-] ` item marker. -/
def bulletItem : Str → Option Nat
  | m :: ' ' :: _ => if m = '*' ∨ m = '-' then some 2 else none
  | _ => none

/-- `\d+\. ` item marker. -/
def numItem (l : Str) : Option Nat :=
  let d := countWhile (fun c => c.isDigit) l
  if 1 ≤ d then
    match l.drop d with
    | '.' :: ' ' :: _ => some (d + 2)
    | _ => none
  else none

/-- JS `String.prototype.split('\n')`. -/
def splitNl : Str → List Str
  | [] => [[]]
  | c :: r =>
    if c = '\n' then [] :: splitNl r
    else
      match splitNl r with
      | h :: t => (c :: h) :: t
      | [] => [[c]]

/-- `item.replace(/^[\*\-] /, '')`. -/
def stripBullet (item : Str) : Str :=
  match bulletItem item with
  | some k => item.drop k
  | none => item

/-- `item.replace(/^\d+\. /, '')`. -/
def stripNum (item : Str) : Str :=
  match numItem item with
  | some k => item.drop k
  | none => item

/-- `items.map(...).join('')` for list items. -/
def liJoin (strip : Str → Str) (items : List Str) : Str :=
  (items.map (fun it =>
    "<li style=\"margin-bottom:8px\">".toList ++ strip it ++ "</li>".toList)).foldr
    (· ++ ·) []

/-- Matcher for the bullet-list rule, replacement computed by the callback:
`match.trim().split('\n')`, strip each marker, wrap in `<li>`/`<ul>`. -/
def bulletM : Matcher := fun prev l =>
  if atLineStart prev then
    match listRunA bulletItem l.length l with
    | some k =>
      some (k, "<ul style=\"margin:16px 0;padding-left:24px\">".toList ++
        liJoin stripBullet (splitNl (jsTrim (l.take k))) ++ "</ul>".toList)
    | none => none
  else none

/-- Matcher for the numbered-list rule (same callback shape, `<ol>` wrapper). -/
def numberedM : Matcher := fun prev l =>
  if atLineStart prev then
    match listRunA numItem l.length l with
    | some k =>
      some (k, "<ol style=\"margin:16px 0;padding-left:24px\">".toList ++
        liJoin stripNum (splitNl (jsTrim (l.take k))) ++ "</ol>".toList)
    | none => none
  else none

/-- Matcher for `/\*\*([^\*]+)\*\*/g`. -/
def boldM : Matcher := fun _ l =>
  if litStarts "**".toList l then
    let n := countWhile (fun c => c != '*') (l.drop 2)
    if 1 ≤ n then
      match l.drop (2 + n) with
      | '*' :: '*' :: _ =>
        some (2 + n + 2, "<strong>".toList ++ (l.drop 2).take n ++ "</strong>".toList)
      | _ => none
    else none
  else none

/-- Matcher for `/\*([^\*]+)\*/g`. -/
def italicM : Matcher := fun _ l =>
  match l with
  | '*' :: r =>
    let n := countWhile (fun c => c != '*') r
    if 1 ≤ n then
      match r.drop n with
      | '*' :: _ => some (1 + n + 1, "<em>".toList ++ r.take n ++ "</em>".toList)
      | _ => none
    else none
  | _ => none

/-- Matcher for `/^---+$/gm`. -/
def hrM : Matcher := fun prev l =>
  if atLineStart prev then
    let n := countWhile (fun c => c == '-') l
    if 3 ≤ n && lineEndAt (l.drop n) then
      some (n, "<hr style=\"border:none;border-top:1px solid #ddd;margin:24px 0\">".toList)
    else none
  else none

/-- Matcher for `/\n\n+/g`. -/
def paraM : Matcher := fun _ l =>
  let n := countWhile (fun c => c == '\n') l
  if 2 ≤ n then some (n, "</p><p style=\"margin:12px 0\">".toList) else none

/-- Matcher for `/\n/g`. -/
def brM : Matcher := fun _ l =>
  match l with
  | '\n' :: _ => some (1, "<br>".toList)
  | _ => none

/-- `convertToHTML(text)`: sanitize, then the markdown rewrite chain in source
order, then the container wrapper. -/
def convertToHTML (t : Str) : Str :=
  let t0 := sanitizeHTML t
  let t1 := replAll codeBlockM t0
  let t2 := replAll inlineCodeM t1
  let t3 := replAll (headingM "### ".toList
    "<h3 style=\"font-size:20px;margin:20px 0 16px\">".toList "</h3>".toList) t2
  let t4 := replAll (headingM "## ".toList
    "<h2 style=\"font-size:24px;margin:24px 0 16px\">".toList "</h2>".toList) t3
  let t5 := replAll (headingM "# ".toList
    "<h1 style=\"font-size:28px;margin:28px 0 20px\">".toList "</h1>".toList) t4
  let t6 := replAll bulletM t5
  let t7 := replAll numberedM t6
  let t8 := replAll boldM t7
  let t9 := replAll italicM t8
  let t10 := replAll hrM t9
  let t11 := replAll paraM t10
  let t12 := replAll brM t11
  ("<div style=\"font-size:16px;line-height:1.6;" ++
   "font-family:-apple-system,sans-serif\"><p style=\"margin:12px 0\">").toList ++
  t12 ++ "</p></div>".toList

/-- `convertToHTML` invoked JS-style on a nullable value: it immediately calls
`sanitizeHTML`, which throws a `TypeError` on `null`. -/
def convertToHTMLcall : Option Str → Except Unit Str
  | none => .error ()
  | some s => .ok (convertToHTML s)

/-! ## convertHTMLToMarkdown -/

/-- Matcher for `/<!--[\s\S]*?-->/g`. -/
def commentM : Matcher := fun _ l =>
  if litStarts "<!--".toList l then
    match findLit "-->".toList (l.drop 4) with
    | some i => some (4 + i + 3, [])
    | none => none
  else none

/-- Matcher for an element rule `` `${opTag}[^>]*>([\s\S]*?)${clTag}` `` with
flags `gi`, building the replacement from the capture via `mk`. -/
def elemM (opTag clTag : Str) (mk : Str → Str) : Matcher := fun _ l =>
  if ciStarts opTag l then
    let a := countWhile (fun c => c != '>') (l.drop opTag.length)
    match l.drop (opTag.length + a) with
    | '>' :: rest =>
      match findCI clTag rest with
      | some i => some (opTag.length + a + 1 + i + clTag.length, mk (rest.take i))
      | none => none
    | _ => none
  else none

/-- Whether an open-tag attribute span contains `font-family:\s*monospace`
(case-insensitively), as required by the code-block blockquote rule. -/
def hasMonoStyle : Str → Bool
  | [] => false
  | c :: r =>
    (if ciStarts "font-family:".toList (c :: r) then
      let sp := countWhile isJsSpace ((c :: r).drop 12)
      ciStarts "monospace".toList ((c :: r).drop (12 + sp))
    else false) || hasMonoStyle r

/-- Matcher for
`/<blockquote[^>]*font-family:\s*monospace[^>]*>([\s\S]*?)<\/blockquote>/gi`. -/
def bqM : Matcher := fun _ l =>
  if ciStarts "<blockquote".toList l then
    let a := countWhile (fun c => c != '>') (l.drop 11)
    if hasMonoStyle ((l.drop 11).take a) then
      match l.drop (11 + a) with
      | '>' :: rest =>
        match findCI "</blockquote>".toList rest with
        | some i =>
          some (11 + a + 1 + i + 13,
            "```\n".toList ++ rest.take i ++ "\n```\n".toList)
        | none => none
      | _ => none
    else none
  else none

/-- Consumed length of one `<li[^>]*>([\s\S]*?)<\/li>` match together with its
capture. -/
def liPiece (l : Str) : Option (Nat × Str) :=
  if ciStarts "<li".toList l then
    let a := countWhile (fun c => c != '>') (l.drop 3)
    match l.drop (3 + a) with
    | '>' :: rest =>
      match findCI "</li>".toList rest with
      | some i => some (3 + a + 1 + i + 5, rest.take i)
      | none => none
    | _ => none
  else none

/-- Matcher for the inner `<li>` replace of the unordered-list rule:
string replacement `'- $1\n'`, so `$1` is substituted. -/
def liUlM : Matcher := fun _ l =>
  match liPiece l with
  | some (k, cap) => some (k, '-' :: ' ' :: cap ++ ['\n'])
  | none => none

/-- Decimal digits of `n` (fuel-based so it reduces definitionally). -/
def digAux : Nat → Nat → Str
  | 0, _ => []
  | fuel + 1, n => if n = 0 then [] else digAux fuel (n / 10) ++ [Char.ofNat (48 + n % 10)]

/-- Decimal representation of a natural number. -/
def digitsOf (n : Nat) : Str := if n = 0 then ['0'] else digAux (n + 1) n

/-- The inner `<li>` replace of the ordered-list rule.  The source uses a
function callback returning the template `` `${listCounter}. $1\n` ``; inside a
function replacement JS does not substitute `$1`, so the literal characters
`$1` appear in the output while the counter increments per item. -/
def olRepl : Nat → Nat → Str → Str
  | 0, _, l => l
  | _ + 1, _, [] => []
  | fuel + 1, cnt, c :: rest =>
    match liPiece (c :: rest) with
    | some (k, _) =>
      (digitsOf (cnt + 1) ++ ". $1\n".toList) ++
        olRepl fuel (cnt + 1) (rest.drop (k - 1))
    | none => c :: olRepl fuel cnt rest

/-- The ordered-list callback body: counter reset to 0, then the inner
replace. -/
def olInner (content : Str) : Str := olRepl content.length 0 content

/-- Matcher for `/<hr[^>]*>/gi`. -/
def hrElemM : Matcher := fun _ l =>
  if ciStarts "<hr".toList l then
    let a := countWhile (fun c => c != '>') (l.drop 3)
    match l.drop (3 + a) with
    | '>' :: _ => some (3 + a + 1, "\n---\n\n".toList)
    | _ => none
  else none

/-- Matcher for `/<br\s*\/?>/gi`. -/
def brElemM : Matcher := fun _ l =>
  if ciStarts "<br".toList l then
    let sp := countWhile isJsSpace (l.drop 3)
    match l.drop (3 + sp) with
    | '/' :: '>' :: _ => some (3 + sp + 2, ['\n'])
    | '>' :: _ => some (3 + sp + 1, ['\n'])
    | _ => none
  else none

/-- One backtracking attempt of the anchor rule at offset `k` of the greedy
`[^>]*` before `href="`. -/
def aAttempt (l : Str) (k : Nat) : Option (Nat × Str) :=
  let l1 := l.drop (2 + k)
  if ciStarts "href=\"".toList l1 then
    let v := countWhile (fun c => c != '"') (l1.drop 6)
    match l1.drop (6 + v) with
    | '"' :: rest2 =>
      let b := countWhile (fun c => c != '>') rest2
      match rest2.drop b with
      | '>' :: rest3 =>
        match findCI "</a>".toList rest3 with
        | some i =>
          some (2 + k + 6 + v + 1 + b + 1 + i + 4,
            '[' :: rest3.take i ++ ']' :: '(' :: (l1.drop 6).take v ++ [')'])
        | none => none
      | _ => none
    | _ => none
  else none

/-- Greedy backtracking of `[^>]*` in the anchor rule: longest prefix first. -/
def aDescend (l : Str) : Nat → Option (Nat × Str)
  | 0 => aAttempt l 0
  | k + 1 =>
    match aAttempt l (k + 1) with
    | some r => some r
    | none => aDescend l k

/-- Matcher for `/<a[^>]*href="([^"]*)"[^>]*>([\s\S]*?)<\/a>/gi`,
replacement `[$2]($1)`. -/
def aElemM : Matcher := fun _ l =>
  if ciStarts "<a".toList l then
    aDescend l (countWhile (fun c => c != '>') (l.drop 2))
  else none

/-- Matcher for `/<[^>]+>/g`. -/
def stripTagM : Matcher := fun _ l =>
  match l with
  | '<' :: r =>
    let n := countWhile (fun c => c != '>') r
    if 1 ≤ n then
      match r.drop n with
      | '>' :: _ => some (1 + n + 1, [])
      | _ => none
    else none
  | _ => none

/-- Matcher for a literal (case-sensitive) entity replace. -/
def entM (pat : Str) (rep : Str) : Matcher := fun _ l =>
  if litStarts pat l then some (pat.length, rep) else none

/-- Matcher for `/\n{3,}/g`. -/
def nlCollapseM : Matcher := fun _ l =>
  let n := countWhile (fun c => c == '\n') l
  if 3 ≤ n then some (n, ['\n', '\n']) else none

/-- `convertHTMLToMarkdown(html)`: guard `if (!html) return ''`, then the rule
chain in source order, then entity decoding, newline collapsing and trim. -/
def convertHTMLToMarkdown (input : Option Str) : Str :=
  match input with
  | none => []
  | some h =>
    if h = [] then [] else
    let t1 := replAll commentM h
    let t2 := replAll (elemM "<h1".toList "</h1>".toList
      (fun c => "# ".toList ++ c ++ "\n\n".toList)) t1
    let t3 := replAll (elemM "<h2".toList "</h2>".toList
      (fun c => "## ".toList ++ c ++ "\n\n".toList)) t2
    let t4 := replAll (elemM "<h3".toList "</h3>".toList
      (fun c => "### ".toList ++ c ++ "\n\n".toList)) t3
    let t5 := replAll (elemM "<h4".toList "</h4>".toList
      (fun c => "#### ".toList ++ c ++ "\n\n".toList)) t4
    let t6 := replAll (elemM "<h5".toList "</h5>".toList
      (fun c => "##### ".toList ++ c ++ "\n\n".toList)) t5
    let t7 := replAll (elemM "<h6".toList "</h6>".toList
      (fun c => "###### ".toList ++ c ++ "\n\n".toList)) t6
    let t8 := replAll (elemM "<strong".toList "</strong>".toList
      (fun c => "**".toList ++ c ++ "**".toList)) t7
    let t9 := replAll (elemM "<b".toList "</b>".toList
      (fun c => "**".toList ++ c ++ "**".toList)) t8
    let t10 := replAll (elemM "<em".toList "</em>".toList
      (fun c => "*".toList ++ c ++ "*".toList)) t9
    let t11 := replAll (elemM "<i".toList "</i>".toList
      (fun c => "*".toList ++ c ++ "*".toList)) t10
    let t12 := replAll bqM t11
    let t13 := replAll (elemM "<code".toList "</code>".toList
      (fun c => '`' :: c ++ ['`'])) t12
    let t14 := replAll (elemM "<ul".toList "</ul>".toList
      (fun c => replAll liUlM c ++ ['\n'])) t13
    let t15 := replAll (elemM "<ol".toList "</ol>".toList
      (fun c => olInner c ++ ['\n'])) t14
    let t16 := replAll hrElemM t15
    let t17 := replAll brElemM t16
    let t18 := replAll (elemM "<p".toList "</p>".toList
      (fun c => c ++ "\n\n".toList)) t17
    let t19 := replAll (elemM "<div".toList "</div>".toList
      (fun c => c ++ ['\n'])) t18
    let t20 := replAll aElemM t19
    let t21 := replAll stripTagM t20
    let t22 := replAll (entM "&nbsp;".toList [' ']) t21
    let t23 := replAll (entM "&amp;".toList ['&']) t22
    let t24 := replAll (entM "&lt;".toList ['<']) t23
    let t25 := replAll (entM "&gt;".toList ['>']) t24
    let t26 := replAll (entM "&quot;".toList ['"']) t25
    let t27 := replAll (entM "&#39;".toList [Char.ofNat 39]) t26
    let t28 := replAll nlCollapseM t27
    jsTrim t28

/-- Sequential substring containment: each pattern occurs after the end of the
previous one's occurrence. -/
def containsInOrder : List Str → Str → Bool
  | [], _ => true
  | p :: ps, l =>
    match findLit p l with
    | some i => containsInOrder ps (l.drop (i + p.length))
    | none => false

/-! ## Predicates used in the claim statements -/

/-- The spec's post-sanitization invariant: none of the denylisted tokens, no
event-handler attribute, no `javascript:` scheme. -/
def noForbidden (l : Str) : Bool :=
  !containsCI "<script".toList l && !containsCI "<iframe".toList l &&
  !containsCI "<object".toList l && !containsCI "<embed".toList l &&
  !containsCI "<form".toList l && !hasMatch handlerM l &&
  !containsCI "javascript:".toList l

/-- No pattern of any of the eight sanitizer rules matches anywhere in `l`. -/
def sanClean (l : Str) : Bool :=
  !hasMatch scriptElemM l && !hasMatch handlerM l && !hasMatch jsSchemeM l &&
  !hasMatch (tagRemM "script".toList) l && !hasMatch (tagRemM "iframe".toList) l &&
  !hasMatch (tagRemM "object".toList) l && !hasMatch (tagRemM "embed".toList) l &&
  !hasMatch (tagRemM "form".toList) l

/-- Last element of `l`, or `p` when `l` is empty. -/
def lastD : Str → Char → Char
  | [], p => p
  | c :: r, _ => lastD r c

/-- Scan with the character preceding the current position: every `"` must be
immediately preceded by `\`. -/
def qeA (prev : Char) : Str → Bool
  | [] => true
  | c :: r => (!(c == '"') || (prev == '\\')) && qeA c r

/-- Every double quote in `l` is immediately preceded by a backslash (a space
is used as the dummy character "before" position 0). -/
def quotesEscaped (l : Str) : Bool := qeA ' ' l

deriving instance DecidableEq for Except

/-! ## Generic lemmas about the rewriting engine -/

theorem mem_charMap {x : Char} {g : Char → List Char} {l : Str}
    (h : x ∈ charMap g l) : ∃ c, c ∈ l ∧ x ∈ g c := by
  induction l with
  | nil => simp [charMap] at h
  | cons c r ih =>
    simp only [charMap, List.mem_append] at h
    rcases h with h | h
    · exact ⟨c, List.mem_cons_self c r, h⟩
    · obtain ⟨c2, hc2, hx⟩ := ih h
      exact ⟨c2, List.mem_cons_of_mem c hc2, hx⟩

theorem not_mem_charMap_pres {x : Char} {g : Char → List Char}
    (hg : ∀ c, x ∈ g c → x = c) {l : Str} (hx : x ∉ l) : x ∉ charMap g l := by
  intro h
  obtain ⟨c, hc, hxc⟩ := mem_charMap h
  exact hx ((hg c hxc) ▸ hc)

theorem not_mem_charMap_kill {x : Char} {g : Char → List Char}
    (hgx : g x = []) (hg : ∀ c, x ∈ g c → x = c) (l : Str) : x ∉ charMap g l := by
  intro h
  obtain ⟨c, hc, hxc⟩ := mem_charMap h
  have hxeq := hg c hxc
  subst hxeq
  rw [hgx] at hxc
  exact absurd hxc (List.not_mem_nil x)

theorem charMap_id {g : Char → List Char} {l : Str}
    (h : ∀ c ∈ l, g c = [c]) : charMap g l = l := by
  induction l with
  | nil => rfl
  | cons c r ih =>
    simp only [charMap, h c (List.mem_cons_self c r),
      ih (fun c2 hc2 => h c2 (List.mem_cons_of_mem c hc2))]
    rfl

theorem mem_crlfRepl {x : Char} {l : Str} (h : x ∈ crlfRepl l) :
    x ∈ l ∨ x = '\\' ∨ x = 'n' := by
  induction l using crlfRepl.induct with
  | case1 => simp [crlfRepl] at h
  | case2 c => exact Or.inl h
  | case3 c1 c2 r hif ih =>
    rw [crlfRepl, if_pos hif] at h
    simp only [List.mem_cons] at h
    rcases h with h | h | h
    · exact Or.inr (Or.inl h)
    · exact Or.inr (Or.inr h)
    · rcases ih h with h2 | h2
      · exact Or.inl (List.mem_cons_of_mem c1 (List.mem_cons_of_mem c2 h2))
      · exact Or.inr h2
  | case4 c1 c2 r hif ih =>
    rw [crlfRepl, if_neg hif] at h
    simp only [List.mem_cons] at h
    rcases h with h | h
    · exact Or.inl (by simp [h])
    · rcases ih h with h2 | h2
      · exact Or.inl (List.mem_cons_of_mem c1 h2)
      · exact Or.inr h2

theorem crlfRepl_eq_self {l : Str} (h : ∀ c ∈ l, c ≠ '\r') : crlfRepl l = l := by
  induction l using crlfRepl.induct with
  | case1 => rfl
  | case2 c => rfl
  | case3 c1 c2 r hif ih => exact absurd hif.1 (h c1 (List.mem_cons_self c1 _))
  | case4 c1 c2 r hif ih =>
    rw [crlfRepl, if_neg hif, ih (fun c hc => h c (List.mem_cons_of_mem c1 hc))]

theorem runRepl_eq_self {m : Matcher} :
    ∀ {f : Nat} {p : Option Char} {l : Str},
      anyMatchA m f p l = false → runRepl m f p l = l := by
  intro f
  induction f with
  | zero => intro p l _; rfl
  | succ f ih =>
    intro p l h
    cases l with
    | nil => rfl
    | cons c rest =>
      rw [runRepl]
      rw [anyMatchA] at h
      cases hm : m p (c :: rest) with
      | none =>
        rw [hm] at h
        show c :: runRepl m f (some c) rest = c :: rest
        rw [ih (by exact h)]
      | some kr =>
        obtain ⟨k, rep⟩ := kr
        rw [hm] at h
        by_cases hk : k = 0
        · subst hk
          show c :: runRepl m f (some c) rest = c :: rest
          rw [ih (by simpa using h)]
        · exact absurd h (by simp [hk])

theorem runRepl_sublist {m : Matcher}
    (hdel : ∀ p l k rep, m p l = some (k, rep) → rep = []) :
    ∀ (f : Nat) (p : Option Char) (l : Str), List.Sublist (runRepl m f p l) l := by
  intro f
  induction f with
  | zero => intro p l; exact List.Sublist.refl _
  | succ f ih =>
    intro p l
    cases l with
    | nil => exact List.Sublist.refl _
    | cons c rest =>
      rw [runRepl]
      cases hm : m p (c :: rest) with
      | none => exact (ih _ _).cons₂ c
      | some kr =>
        obtain ⟨k, rep⟩ := kr
        have hrep := hdel _ _ _ _ hm
        subst hrep
        show List.Sublist
          (if k = 0 then c :: runRepl m f (some c) rest
           else [] ++ runRepl m f (some ((c :: rest).getD (k - 1) c))
             (List.drop (k - 1) rest)) (c :: rest)
        by_cases hk : k = 0
        · rw [if_pos hk]
          exact (ih _ _).cons₂ c
        · rw [if_neg hk]
          rw [List.nil_append]
          exact ((ih _ _).trans (List.drop_sublist _ _)).trans
            (List.sublist_cons_self c rest)

theorem runRepl_replicate {m : Matcher} {a : Char}
    (hm : ∀ p k, m p (List.replicate k a) = none) :
    ∀ (f k : Nat) (p : Option Char),
      runRepl m f p (List.replicate k a) = List.replicate k a := by
  intro f
  induction f with
  | zero => intro k p; rfl
  | succ f ih =>
    intro k p
    cases k with
    | zero => rfl
    | succ k =>
      have hm2 := hm p (k + 1)
      rw [List.replicate_succ] at hm2 ⊢
      rw [runRepl, hm2, ih k (some a)]

/-! ## Lemmas about the quote-escaping invariant -/

theorem qeA_append (a b : Str) (p : Char) :
    qeA p (a ++ b) = (qeA p a && qeA (lastD a p) b) := by
  induction a generalizing p with
  | nil => simp [qeA, lastD]
  | cons c r ih => simp [qeA, lastD, ih, Bool.and_assoc]

theorem qeA_no_quote {a : Str} (h : ∀ x ∈ a, x ≠ '"') (p : Char) :
    qeA p a = true := by
  induction a generalizing p with
  | nil => rfl
  | cons c r ih =>
    have hc : (c == '"') = false := by
      simp [h c (List.mem_cons_self c r)]
    simp [qeA, hc, ih (fun x hx => h x (List.mem_cons_of_mem c hx))]

theorem qeA_charMap_gQuote (l : Str) (p : Char) :
    qeA p (charMap gQuote l) = true := by
  induction l generalizing p with
  | nil => rfl
  | cons c r ih =>
    by_cases hc : c = '"'
    · subst hc
      show qeA p (['\\', '"'] ++ charMap gQuote r) = true
      rw [qeA_append]
      simp [qeA, lastD, ih]
    · show qeA p (gQuote c ++ charMap gQuote r) = true
      rw [gQuote, if_neg hc, qeA_append]
      have h1 : (c == '"') = false := by simp [hc]
      simp [qeA, lastD, h1, ih]

theorem qeA_charMap {g : Char → List Char} (hb : g '\\' = ['\\'])
    (hq : g '"' = ['"']) (hno : ∀ c, c ≠ '"' → ∀ x ∈ g c, x ≠ '"') :
    ∀ {l : Str} (p p' : Char), (p = '\\' → p' = '\\') → qeA p l = true →
      qeA p' (charMap g l) = true := by
  intro l
  induction l with
  | nil => intro p p' _ _; rfl
  | cons c r ih =>
    intro p p' hr h
    rw [qeA, Bool.and_eq_true] at h
    obtain ⟨h1, h2⟩ := h
    show qeA p' (g c ++ charMap g r) = true
    rw [qeA_append, Bool.and_eq_true]
    constructor
    · by_cases hc : c = '"'
      · subst hc
        have hp : p = '\\' := by
          rcases Bool.or_eq_true _ _ |>.mp h1 with h3 | h3
          · simp at h3
          · exact by simpa using h3
        have hp' := hr hp
        subst hp'
        rw [hq]
        simp [qeA]
      · exact qeA_no_quote (hno c hc) p'
    · apply ih c (lastD (g c) p')
      · intro hc
        subst hc
        rw [hb]
        rfl
      · exact h2

theorem qeA_crlfRepl :
    ∀ {l : Str} (p p' : Char), (p = '\\' → p' = '\\') → qeA p l = true →
      qeA p' (crlfRepl l) = true := by
  intro l
  induction l using crlfRepl.induct with
  | case1 => intro p p' _ _; rfl
  | case2 c =>
    intro p p' hr h
    rw [qeA, Bool.and_eq_true] at h
    obtain ⟨h1, _⟩ := h
    show qeA p' [c] = true
    by_cases hc : c = '"'
    · subst hc
      have hp : p = '\\' := by
        rcases Bool.or_eq_true _ _ |>.mp h1 with h3 | h3
        · simp at h3
        · exact by simpa using h3
      have hp' := hr hp
      subst hp'
      simp [qeA]
    · have h4 : (c == '"') = false := by simp [hc]
      simp [qeA, h4]
  | case3 c1 c2 r hif ih =>
    intro p p' hr h
    obtain ⟨hc1, hc2⟩ := hif
    subst hc1; subst hc2
    rw [qeA, Bool.and_eq_true] at h
    obtain ⟨_, h2⟩ := h
    rw [qeA, Bool.and_eq_true] at h2
    obtain ⟨_, h3⟩ := h2
    rw [crlfRepl, if_pos ⟨rfl, rfl⟩]
    rw [qeA, qeA]
    simp only [Bool.and_eq_true]
    refine ⟨by simp, by decide, ?_⟩
    exact ih '\n' 'n' (by intro hx; exact absurd hx (by decide)) h3
  | case4 c1 c2 r hif ih =>
    intro p p' hr h
    rw [qeA, Bool.and_eq_true] at h
    obtain ⟨h1, h2⟩ := h
    rw [crlfRepl, if_neg hif]
    rw [qeA, Bool.and_eq_true]
    constructor
    · by_cases hc : c1 = '"'
      · subst hc
        have hp : p = '\\' := by
          rcases Bool.or_eq_true _ _ |>.mp h1 with h3 | h3
          · simp at h3
          · exact by simpa using h3
        have hp' := hr hp
        subst hp'
        simp
      · have h4 : (c1 == '"') = false := by simp [hc]
        simp [h4]
    · exact ih c1 c1 (fun hx => hx) h2

theorem qeA_take {l : Str} :
    ∀ {p : Char} {n : Nat}, qeA p l = true → qeA p (l.take n) = true := by
  induction l with
  | nil => intro p n _; simp [List.take_nil]; rfl
  | cons c r ih =>
    intro p n h
    cases n with
    | zero => rfl
    | succ n =>
      rw [qeA, Bool.and_eq_true] at h
      rw [List.take_succ_cons, qeA, Bool.and_eq_true]
      exact ⟨h.1, ih h.2⟩

theorem delOf_del (extent : Option Char → Str → Option Nat) :
    ∀ p l k rep, delOf extent p l = some (k, rep) → rep = [] := by
  intro p l k rep hm
  rw [delOf] at hm
  cases hK : extent p l with
  | none => rw [hK] at hm; exact absurd hm (by simp)
  | some k2 =>
    rw [hK] at hm
    simp only [Option.map_some', Option.some.injEq, Prod.mk.injEq] at hm
    exact hm.2.symm

theorem mem_ite_rep {x c : Char} {P : Prop} {inst : Decidable P} {rep : List Char}
    (hx : x ∉ rep) (h : x ∈ (@ite _ P inst rep [c])) : x = c := by
  by_cases hP : P
  · rw [if_pos hP] at h
    exact absurd h hx
  · rw [if_neg hP] at h
    simpa using h

theorem not_mem_crlfRepl {x : Char} {l : Str} (hx : x ∉ l)
    (h1 : x ≠ '\\') (h2 : x ≠ 'n') : x ∉ crlfRepl l := by
  intro h
  rcases mem_crlfRepl h with h3 | h3 | h3
  · exact hx h3
  · exact h1 h3
  · exact h2 h3

theorem not_mem_truncStep {x : Char} {l : Str} (hx : x ∉ l)
    (hm : x ∉ truncMarker) : x ∉ truncStep l := by
  rw [truncStep]
  split
  · intro h
    rcases List.mem_append.mp h with h2 | h2
    · exact hx (List.mem_of_mem_take h2)
    · exact hm h2
  · exact hx

theorem hno_of {g : Char → List Char}
    (hshape : ∀ c, g c = [c] ∨ ∀ x ∈ g c, x ≠ '"') :
    ∀ c, c ≠ '"' → ∀ x ∈ g c, x ≠ '"' := by
  intro c hc x hx
  rcases hshape c with h | h
  · rw [h] at hx
    simp only [List.mem_singleton] at hx
    exact hx ▸ hc
  · exact h x hx

theorem gCr_shape : ∀ c, gCr c = [c] ∨ ∀ x ∈ gCr c, x ≠ '"' := by
  intro c
  by_cases hc : c = '\r'
  · right
    rw [gCr, if_pos hc]
    decide
  · left
    rw [gCr, if_neg hc]

theorem gLf_shape : ∀ c, gLf c = [c] ∨ ∀ x ∈ gLf c, x ≠ '"' := by
  intro c
  by_cases hc : c = '\n'
  · right
    rw [gLf, if_pos hc]
    decide
  · left
    rw [gLf, if_neg hc]

theorem gTab_shape : ∀ c, gTab c = [c] ∨ ∀ x ∈ gTab c, x ≠ '"' := by
  intro c
  by_cases hc : c = '\t'
  · right
    rw [gTab, if_pos hc]
    decide
  · left
    rw [gTab, if_neg hc]

theorem gFv_shape : ∀ c, gFv c = [c] ∨ ∀ x ∈ gFv c, x ≠ '"' := by
  intro c
  by_cases hc : c.toNat = 12 ∨ c.toNat = 11
  · right
    rw [gFv, if_pos hc]
    decide
  · left
    rw [gFv, if_neg hc]

theorem gClose_shape : ∀ c, gClose c = [c] ∨ ∀ x ∈ gClose c, x ≠ '"' := by
  intro c
  by_cases hc : c = '\x7d'
  · right
    rw [gClose, if_pos hc]
    decide
  · left
    rw [gClose, if_neg hc]

theorem gOpen_shape : ∀ c, gOpen c = [c] ∨ ∀ x ∈ gOpen c, x ≠ '"' := by
  intro c
  by_cases hc : c = '\x7b'
  · right
    rw [gOpen, if_pos hc]
    decide
  · left
    rw [gOpen, if_neg hc]

theorem quotesEscaped_truncStep {l : Str} (h : qeA ' ' l = true) :
    qeA ' ' (truncStep l) = true := by
  rw [truncStep]
  split
  · rw [qeA_append, Bool.and_eq_true]
    exact ⟨qeA_take h, qeA_no_quote (by decide) _⟩
  · exact h

theorem ciStarts_tell_replicate (k : Nat) :
    ciStarts ['t', 'e', 'l', 'l'] (List.replicate k 'a') = false := by
  cases k with
  | zero => decide
  | succ k =>
    rw [List.replicate_succ]
    have h0 : ciStarts ['t', 'e', 'l', 'l'] ('a' :: List.replicate k 'a') =
        ((lowerChar 't' == lowerChar 'a') &&
          ciStarts ['e', 'l', 'l'] (List.replicate k 'a')) := rfl
    rw [h0, show (lowerChar 't' == lowerChar 'a') = false from by decide,
      Bool.false_and]

theorem ciStarts_end_replicate (k : Nat) :
    ciStarts ['e', 'n', 'd'] (List.replicate k 'a') = false := by
  cases k with
  | zero => decide
  | succ k =>
    rw [List.replicate_succ]
    have h0 : ciStarts ['e', 'n', 'd'] ('a' :: List.replicate k 'a') =
        ((lowerChar 'e' == lowerChar 'a') &&
          ciStarts ['n', 'd'] (List.replicate k 'a')) := rfl
    rw [h0, show (lowerChar 'e' == lowerChar 'a') = false from by decide,
      Bool.false_and]

theorem tellM_replicate (p : Option Char) (k : Nat) :
    tellM p (List.replicate k 'a') = none := by
  simp [tellM, ciStarts_tell_replicate k]

theorem endTellM_replicate (p : Option Char) (k : Nat) :
    endTellM p (List.replicate k 'a') = none := by
  simp [endTellM, ciStarts_end_replicate k]

theorem escapeSteps_replicate (n : Nat) :
    escapeSteps (List.replicate n 'a') = List.replicate n 'a' := by
  have cm : ∀ (g : Char → List Char), g 'a' = ['a'] →
      charMap g (List.replicate n 'a') = List.replicate n 'a' := fun g hg =>
    charMap_id (fun c hc => by rw [List.eq_of_mem_replicate hc, hg])
  have r1 : replAll tellM (List.replicate n 'a') = List.replicate n 'a' :=
    runRepl_replicate tellM_replicate _ _ _
  have r2 : replAll endTellM (List.replicate n 'a') = List.replicate n 'a' :=
    runRepl_replicate endTellM_replicate _ _ _
  have rc : crlfRepl (List.replicate n 'a') = List.replicate n 'a' :=
    crlfRepl_eq_self (fun c hc => by rw [List.eq_of_mem_replicate hc]; decide)
  show charMap gOpen (charMap gClose (charMap gFv (charMap gTab (charMap gLf
    (charMap gCr (crlfRepl (charMap gQuote (charMap gBack (charMap gZw
    (charMap gSep (charMap gCtrl (replAll endTellM
    (replAll tellM (List.replicate n 'a')))))))))))))) = List.replicate n 'a'
  rw [r1, r2, cm gCtrl (by decide), cm gSep (by decide), cm gZw (by decide),
    cm gBack (by decide), cm gQuote (by decide), rc, cm gCr (by decide),
    cm gLf (by decide), cm gTab (by decide), cm gFv (by decide),
    cm gClose (by decide), cm gOpen (by decide)]

theorem escape_replicate_length :
    (escapeForAppleScript (some (List.replicate 50001 'a'))).length = 50015 := by
  have hne : List.replicate 50001 'a' ≠ [] := by
    rw [Ne, List.replicate_eq_nil_iff]
    decide
  show (if List.replicate 50001 'a' = [] then ([] : Str)
    else truncStep (escapeSteps (List.replicate 50001 'a'))).length = 50015
  rw [if_neg hne, escapeSteps_replicate, truncStep,
    if_pos (by rw [List.length_replicate]; decide : (50000 : Nat) <
      (List.replicate 50001 'a').length),
    List.length_append, List.length_take, List.length_replicate]
  decide

theorem not_mem_escape_tail {x : Char} {u : Str} (hu : x ∉ charMap gCtrl u)
    (hb : x ∉ (['\\', '\\'] : List Char)) (hq : x ∉ (['\\', '"'] : List Char))
    (hn : x ∉ (['\\', 'n'] : List Char)) (ht : x ∉ (['\\', 't'] : List Char))
    (hsp : x ∉ ([' '] : List Char)) (hmk : x ∉ truncMarker) :
    x ∉ truncStep (charMap gOpen (charMap gClose (charMap gFv (charMap gTab
      (charMap gLf (charMap gCr (crlfRepl (charMap gQuote (charMap gBack
      (charMap gZw (charMap gSep (charMap gCtrl u)))))))))))) := by
  have h4 := not_mem_charMap_pres (g := gSep)
    (fun c hc => mem_ite_rep (List.not_mem_nil x) hc) hu
  have h5 := not_mem_charMap_pres (g := gZw)
    (fun c hc => mem_ite_rep (List.not_mem_nil x) hc) h4
  have h6 := not_mem_charMap_pres (g := gBack)
    (fun c hc => mem_ite_rep hb hc) h5
  have h7 := not_mem_charMap_pres (g := gQuote)
    (fun c hc => mem_ite_rep hq hc) h6
  have h8 := not_mem_crlfRepl h7
    (fun hx => hb (by rw [hx]; exact List.mem_cons_self _ _))
    (fun hx => hn (by rw [hx]; simp))
  have h9 := not_mem_charMap_pres (g := gCr)
    (fun c hc => mem_ite_rep hn hc) h8
  have h10 := not_mem_charMap_pres (g := gLf)
    (fun c hc => mem_ite_rep hn hc) h9
  have h11 := not_mem_charMap_pres (g := gTab)
    (fun c hc => mem_ite_rep ht hc) h10
  have h12 := not_mem_charMap_pres (g := gFv)
    (fun c hc => mem_ite_rep hsp hc) h11
  have h13 := not_mem_charMap_pres (g := gClose)
    (fun c hc => mem_ite_rep (List.not_mem_nil x) hc) h12
  have h14 := not_mem_charMap_pres (g := gOpen)
    (fun c hc => mem_ite_rep (List.not_mem_nil x) hc) h13
  exact not_mem_truncStep h14 hmk

theorem quotesEscaped_escape_tail (v : Str) :
    qeA ' ' (truncStep (charMap gOpen (charMap gClose (charMap gFv (charMap gTab
      (charMap gLf (charMap gCr (crlfRepl (charMap gQuote v))))))))) = true := by
  have q7 := qeA_charMap_gQuote v ' '
  have q8 := qeA_crlfRepl ' ' ' ' (fun h => h) q7
  have q9 := qeA_charMap (g := gCr) (by decide) (by decide) (hno_of gCr_shape)
    ' ' ' ' (fun h => h) q8
  have q10 := qeA_charMap (g := gLf) (by decide) (by decide) (hno_of gLf_shape)
    ' ' ' ' (fun h => h) q9
  have q11 := qeA_charMap (g := gTab) (by decide) (by decide) (hno_of gTab_shape)
    ' ' ' ' (fun h => h) q10
  have q12 := qeA_charMap (g := gFv) (by decide) (by decide) (hno_of gFv_shape)
    ' ' ' ' (fun h => h) q11
  have q13 := qeA_charMap (g := gClose) (by decide) (by decide) (hno_of gClose_shape)
    ' ' ' ' (fun h => h) q12
  have q14 := qeA_charMap (g := gOpen) (by decide) (by decide) (hno_of gOpen_shape)
    ' ' ' ' (fun h => h) q13
  exact quotesEscaped_truncStep q14

/-! ## Claim theorems -/

set_option maxRecDepth 400000

/-- C10 (confirmed): every rewrite rule in `sanitizeHTML` replaces its matches
with the empty string, so for every input `h` the output is a subsequence of
`h` (characters are only ever removed, never inserted) and is never longer. -/
theorem C10_sanitize_subtractive (h : Str) :
    List.Sublist (sanitizeHTML h) h ∧ (sanitizeHTML h).length ≤ h.length := by
  have s : ∀ (K : Option Char → Str → Option Nat) (l : Str),
      List.Sublist (replAll (delOf K) l) l := fun K l =>
    runRepl_sublist (delOf_del K) l.length none l
  have t1 : List.Sublist (sanitizeHTML h) h := by
    show List.Sublist
      (replAll (tagRemM "form".toList) (replAll (tagRemM "embed".toList)
        (replAll (tagRemM "object".toList) (replAll (tagRemM "iframe".toList)
        (replAll (tagRemM "script".toList) (replAll jsSchemeM
        (replAll handlerM (replAll scriptElemM h)))))))) h
    exact (s _ _).trans ((s _ _).trans ((s _ _).trans ((s _ _).trans
      ((s _ _).trans ((s _ _).trans ((s _ _).trans (s _ _)))))))
  exact ⟨t1, t1.length_le⟩

/-- C3 counterexample: sanitization is not idempotent.  On
`<scr<script>ipt>` the first pass deletes the inner `<script>` tag and splices
the remaining text into a new `<script>`, which the second pass then deletes. -/
theorem C3_counterexample :
    sanitizeHTML (sanitizeHTML "<scr<script>ipt>".toList) ≠
      sanitizeHTML "<scr<script>ipt>".toList := by decide

/-- C3 (amended): sanitization is idempotent on every `h` whose image
`sanitize(h)` contains no residual match of any of the eight sanitizer
patterns; in general idempotence fails because the single-pass deletions can
splice surrounding text into new matches. -/
theorem C3_sanitize_idempotent_on_clean (h : Str)
    (hc : sanClean (sanitizeHTML h) = true) :
    sanitizeHTML (sanitizeHTML h) = sanitizeHTML h := by
  rw [sanClean] at hc
  simp only [Bool.and_eq_true, Bool.not_eq_true'] at hc
  obtain ⟨⟨⟨⟨⟨⟨⟨h1, h2⟩, h3⟩, h4⟩, h5⟩, h6⟩, h7⟩, h8⟩ := hc
  have e1 : replAll scriptElemM (sanitizeHTML h) = sanitizeHTML h :=
    runRepl_eq_self h1
  have e2 : replAll handlerM (sanitizeHTML h) = sanitizeHTML h :=
    runRepl_eq_self h2
  have e3 : replAll jsSchemeM (sanitizeHTML h) = sanitizeHTML h :=
    runRepl_eq_self h3
  have e4 : replAll (tagRemM "script".toList) (sanitizeHTML h) = sanitizeHTML h :=
    runRepl_eq_self h4
  have e5 : replAll (tagRemM "iframe".toList) (sanitizeHTML h) = sanitizeHTML h :=
    runRepl_eq_self h5
  have e6 : replAll (tagRemM "object".toList) (sanitizeHTML h) = sanitizeHTML h :=
    runRepl_eq_self h6
  have e7 : replAll (tagRemM "embed".toList) (sanitizeHTML h) = sanitizeHTML h :=
    runRepl_eq_self h7
  have e8 : replAll (tagRemM "form".toList) (sanitizeHTML h) = sanitizeHTML h :=
    runRepl_eq_self h8
  show replAll (tagRemM "form".toList) (replAll (tagRemM "embed".toList)
    (replAll (tagRemM "object".toList) (replAll (tagRemM "iframe".toList)
    (replAll (tagRemM "script".toList) (replAll jsSchemeM
    (replAll handlerM (replAll scriptElemM (sanitizeHTML h)))))))) = sanitizeHTML h
  rw [e1, e2, e3, e4, e5, e6, e7, e8]

/-- C3 witness: a concrete input whose sanitized image is clean, on which the
idempotence theorem applies. -/
theorem C3_witness :
    sanClean (sanitizeHTML "<script>x</script><b>hi</b>".toList) = true ∧
    sanitizeHTML (sanitizeHTML "<script>x</script><b>hi</b>".toList) =
      sanitizeHTML "<script>x</script><b>hi</b>".toList :=
  ⟨by decide, C3_sanitize_idempotent_on_clean _ (by decide)⟩

/-- C1 counterexample: `<scr<script>ipt>` contains the denylisted tag
`<script>`, yet its sanitized output still contains `<script` (the single-pass
deletion splices `<scr` and `ipt>` into a fresh `<script>`). -/
theorem C1_counterexample :
    containsCI "<script".toList (sanitizeHTML "<scr<script>ipt>".toList) = true ∧
    containsCI "<script>".toList "<scr<script>ipt>".toList = true := by decide

/-- C1 (amended): the sanitizer removes the denylisted constructs when their
removal does not splice surrounding text into a new forbidden occurrence; this
holds for the standard forms of each denylisted construct (a script element, an
iframe/object/embed/form element, an `on*="..."` attribute, a `javascript:`
token), but not for every input `h`. -/
theorem C1_sanitize_standard_forms :
    noForbidden (sanitizeHTML "<script>alert(1)</script><p>hi</p>".toList) = true ∧
    noForbidden (sanitizeHTML "<IFRAME src=x></IFRAME>ok".toList) = true ∧
    noForbidden (sanitizeHTML "<object data=x></object>ok".toList) = true ∧
    noForbidden (sanitizeHTML "<embed src=x>ok".toList) = true ∧
    noForbidden (sanitizeHTML "<form action=a><input></form>ok".toList) = true ∧
    noForbidden (sanitizeHTML "<img onerror=\"x\" src=\"y\">".toList) = true ∧
    noForbidden (sanitizeHTML "<a href=\"javascript:alert(1)\">x</a>".toList) = true := by
  decide

/-- C5 (code bug): the ordered-list extraction callback returns the template
`` `${listCounter}. $1\n` `` from a function replacement, where JS does not
substitute `$1`; the item text is therefore lost and the literal characters
`$1` appear in the output, while the counter does increment and reset per
list. -/
theorem C5_ol_extraction_eval :
    convertHTMLToMarkdown (some "<ol><li>Hello</li></ol>".toList) = "1. $1".toList ∧
    convertHTMLToMarkdown (some "<ol><li>a</li><li>b</li></ol><ol><li>c</li></ol>".toList) =
      "1. $1\n2. $1\n\n1. $1".toList := by decide

/-- C8 (confirmed): title validation raises exactly the specified error kinds
on a whitespace-only title, a 256-character title, and a `null` title. -/
theorem C8_title_validation_errors :
    validateInput (some (List.replicate 3 ' ')) "title".toList =
      Except.error ValidationError.emptyInput ∧
    validateInput (some (List.replicate 256 'a')) "title".toList =
      Except.error ValidationError.tooLong ∧
    validateInput none "title".toList =
      Except.error ValidationError.invalidType := by decide

/-- C9 (confirmed): rendering the given markdown body to HTML and extracting
it back yields a level-1 heading line, a bold span, an italic span and two
bullet lines, in that relative order. -/
theorem C9_roundtrip_structure :
    containsInOrder ["# Heading\n".toList, "**Bold**".toList, "*italic*".toList,
      "- Item 1\n".toList, "- Item 2".toList]
      (convertHTMLToMarkdown (some (convertToHTML
        "# Heading\n\n**Bold** and *italic* text.\n\n- Item 1\n- Item 2".toList))) =
      true := by decide

/-- C7 counterexample: the empty string is a string, but the JS guard
`!input` is true for `''`, so an empty body is rejected with the
invalid-type error instead of being accepted. -/
theorem C7_counterexample :
    validateInput (some []) "body".toList =
      Except.error ValidationError.invalidType := by decide

/-- C7 (amended): for every non-empty string `s`, body-kind validation
succeeds and returns `s` trimmed, and it can never fail with the empty-input
or too-long errors; the empty string (like `null`) fails with the
invalid-type error. -/
theorem C7_body_validation (s : Str) :
    validateInput (some s) "body".toList ≠ Except.error ValidationError.emptyInput ∧
    validateInput (some s) "body".toList ≠ Except.error ValidationError.tooLong ∧
    (s ≠ [] → validateInput (some s) "body".toList = Except.ok (jsTrim s)) := by
  have hbt : "body".toList ≠ "title".toList := by decide
  by_cases hs : s = []
  · subst hs
    refine ⟨by decide, by decide, ?_⟩
    intro hne
    exact absurd rfl hne
  · have h1 : validateInput (some s) "body".toList = Except.ok (jsTrim s) := by
      show (if s = [] then Except.error ValidationError.invalidType
        else if "body".toList = "title".toList ∧ 255 < s.length then
          Except.error ValidationError.tooLong
        else if "body".toList = "title".toList ∧ jsTrim s = [] then
          Except.error ValidationError.emptyInput
        else Except.ok (jsTrim s)) = Except.ok (jsTrim s)
      rw [if_neg hs, if_neg (fun hx => hbt hx.1), if_neg (fun hx => hbt hx.1)]
    rw [h1]
    exact ⟨by simp, by simp, fun _ => rfl⟩

/-- C7 witness: a concrete non-empty body is accepted and trimmed. -/
theorem C7_witness :
    validateInput (some " x ".toList) "body".toList = Except.ok "x".toList := by
  have h := (C7_body_validation " x ".toList).2.2 (by decide)
  rw [h]
  decide

/-- C6 counterexample: `sanitizeHTML` and `convertToHTML` start by calling
`text.replace(...)` with no null guard, so on a `null` argument they throw a
`TypeError` instead of returning a string. -/
theorem C6_counterexample :
    sanitizeHTMLcall none = Except.error () ∧
    convertToHTMLcall none = Except.error () := ⟨rfl, rfl⟩

/-- C6 (amended): `escapeForAppleScript` and `convertHTMLToMarkdown` are total
for every input including `null` (returning `''` there), and `sanitizeHTML`
and `convertToHTML` are total on every string input, but the latter two throw
a `TypeError` on `null`/absent input. -/
theorem C6_totality (s : Str) :
    escapeForAppleScript none = [] ∧
    convertHTMLToMarkdown none = [] ∧
    sanitizeHTMLcall (some s) = Except.ok (sanitizeHTML s) ∧
    convertToHTMLcall (some s) = Except.ok (convertToHTML s) ∧
    sanitizeHTMLcall none = Except.error () ∧
    convertToHTMLcall none = Except.error () :=
  ⟨rfl, rfl, rfl, rfl, rfl, rfl⟩

/-- C2 counterexample: on the input `te` NUL `ll` the keyword pass (which
runs first) sees no whole word `tell`, the later control-character strip
removes the NUL, and the two halves splice into the whole word `tell`, which
survives to the output (the output is exactly `tell`). -/
theorem C2_counterexample :
    hasMatch tellM (escapeForAppleScript (some ['t', 'e', Char.ofNat 0, 'l', 'l'])) =
      true ∧
    escapeForAppleScript (some ['t', 'e', Char.ofNat 0, 'l', 'l']) =
      "tell".toList := by decide

/-- C2 (amended): for every text `s`, `escapeForAppleScript(s)` contains no
NUL (0x00) and no 0x1F character, no literal `{` (0x7B) or `}` (0x7D)
character, and every double quote in it is immediately preceded by a
backslash.  The keyword clause of the original claim is dropped: stripping
runs after keyword neutralization, so a whole-word `tell` can be re-assembled
from fragments separated by stripped characters. -/
theorem C2_escape_charlevel (s : Str) :
    Char.ofNat 0 ∉ escapeForAppleScript (some s) ∧
    Char.ofNat 31 ∉ escapeForAppleScript (some s) ∧
    Char.ofNat 123 ∉ escapeForAppleScript (some s) ∧
    Char.ofNat 125 ∉ escapeForAppleScript (some s) ∧
    quotesEscaped (escapeForAppleScript (some s)) = true := by
  by_cases hs : s = []
  · subst hs
    exact ⟨by decide, by decide, by decide, by decide, by decide⟩
  · have he : escapeForAppleScript (some s) = truncStep (escapeSteps s) := by
      show (if s = [] then [] else truncStep (escapeSteps s)) = _
      rw [if_neg hs]
    have hsteps : escapeSteps s = charMap gOpen (charMap gClose (charMap gFv
      (charMap gTab (charMap gLf (charMap gCr (crlfRepl (charMap gQuote
      (charMap gBack (charMap gZw (charMap gSep (charMap gCtrl
      (replAll endTellM (replAll tellM s))))))))))))) := rfl
    rw [he, hsteps]
    generalize replAll endTellM (replAll tellM s) = u
    refine ⟨?_, ?_, ?_, ?_, ?_⟩
    · exact not_mem_escape_tail
        (not_mem_charMap_kill (g := gCtrl) (by decide)
          (fun c hc => mem_ite_rep (List.not_mem_nil _) hc) u)
        (by decide) (by decide) (by decide) (by decide) (by decide) (by decide)
    · exact not_mem_escape_tail
        (not_mem_charMap_kill (g := gCtrl) (by decide)
          (fun c hc => mem_ite_rep (List.not_mem_nil _) hc) u)
        (by decide) (by decide) (by decide) (by decide) (by decide) (by decide)
    · exact not_mem_charMap_kill (g := gOpen) (by decide)
        (fun c hc => mem_ite_rep (List.not_mem_nil _) hc) _ |>.imp
        (fun h => h) |> fun h => not_mem_truncStep h (by decide)
    · have k13 := not_mem_charMap_kill (g := gClose) (x := Char.ofNat 125)
        (by decide) (fun c hc => mem_ite_rep (List.not_mem_nil _) hc)
        (charMap gFv (charMap gTab (charMap gLf (charMap gCr (crlfRepl
          (charMap gQuote (charMap gBack (charMap gZw (charMap gSep
          (charMap gCtrl u))))))))))
      have k14 := not_mem_charMap_pres (g := gOpen)
        (fun c hc => mem_ite_rep (List.not_mem_nil _) hc) k13
      exact not_mem_truncStep k14 (by decide)
    · exact quotesEscaped_escape_tail _

/-- C4 counterexample: on 50,001 letters `a` the escaped text is 50,015
characters long (50,000 kept characters plus the 15-character marker), so the
claimed bound of 50,000 fails. -/
theorem C4_counterexample :
    ¬((escapeForAppleScript (some (List.replicate 50001 'a'))).length ≤ 50000) := by
  rw [escape_replicate_length]
  decide

/-- C4 (amended): the length of `escapeForAppleScript(s)` is at most 50,015:
when the escaped result exceeds 50,000 characters it is truncated to 50,000
characters and the 15-character marker `... (truncated)` is appended (so any
output longer than 50,000 ends with the marker). -/
theorem C4_escape_length (s : Str) :
    (escapeForAppleScript (some s)).length ≤ 50015 ∧
    (50000 < (escapeForAppleScript (some s)).length →
      List.IsSuffix truncMarker (escapeForAppleScript (some s))) := by
  by_cases hs : s = []
  · subst hs
    exact ⟨by decide, fun h => absurd h (by decide)⟩
  · have he : escapeForAppleScript (some s) = truncStep (escapeSteps s) := by
      show (if s = [] then [] else truncStep (escapeSteps s)) = _
      rw [if_neg hs]
    rw [he, truncStep]
    split
    next hgt =>
      constructor
      · rw [List.length_append, List.length_take,
          Nat.min_eq_left (Nat.le_of_lt hgt)]
        decide
      · intro _
        exact List.suffix_append _ _
    next hle =>
      constructor
      · exact le_trans (Nat.not_lt.mp hle) (by decide)
      · intro hgt2
        exact absurd hgt2 hle

/-- C4 witness: on 50,001 letters `a` the output exceeds 50,000 characters
and therefore ends with the truncation marker. -/
theorem C4_witness :
    List.IsSuffix truncMarker
      (escapeForAppleScript (some (List.replicate 50001 'a'))) :=
  (C4_escape_length (List.replicate 50001 'a')).2
    (by rw [escape_replicate_length]; decide)

end Notes
